import Mathlib

/-!
Shallow embedding of the confetti particle engine from `src/index.js`
(classes `Confetti` and `ConfettiManager`, plus the helpers they use).

Modelling conventions:
* JS numbers are embedded as exact rationals `ℚ`; all the arithmetic the
  claims are about (drag decay, the fall formula, tumble clamping,
  visibility bounds, canvas sizing) is plain field arithmetic on them.
* Every call to `Utils.getRandomInRange` / `Math.random` is replaced by an
  explicitly passed sampled value (structure `ConfettiRand`); the trig of
  the sampled launch angle is represented by its cached magnitudes
  `absCos` / `absSin`, exactly as the source caches them.
* `Utils.getRandomItem(array)` indexes with `Math.floor(Math.random()*len)`,
  a uniform index in `[0, len)`; it is embedded as lookup at `k % len` for a
  sampled `k`, returning `none` on the empty array (JS `undefined`).
* DOM state is explicit: `window.innerWidth`, `window.innerHeight` and
  `window.devicePixelRatio` are parameters, the canvas is the
  `canvasWidth` / `canvasHeight` fields of the manager state, and
  `Date.now()` is a `ℚ` timestamp argument.
* The asynchronous `svgImage.onload` handler is the separate transition
  `svgIconLoad`; inside a particle `svgIconProvided` records whether an
  icon URL was supplied and `svgIcon` is the readiness flag that the
  handler flips (the source's `this.svgIcon` being non-null).
-/

namespace SiemensConfetti

/-- A 2-D point or vector, the `{x, y}` records of the source. -/
structure Vec2 where
  x : ℚ
  y : ℚ
deriving DecidableEq, Repr

/-- The `direction` strings `"left"` / `"right"` of the source. -/
inductive Direction where
  | left
  | right
deriving DecidableEq, Repr

/-- The `radiusYDirection` strings `"down"` / `"up"` of the source. -/
inductive RadiusYDir where
  | down
  | up
deriving DecidableEq, Repr

/-- One tuple of the random draws the `Confetti` constructor makes.
`speedFactor` stands for `getRandomInRange(0.9, 1.7, 3) * getScaleFactor()`,
`rotationBase` for `getRandomInRange(0.03, 0.07, 3) * getScaleFactor()`,
`absCos` / `absSin` for the cached magnitudes of the sampled launch angle,
`offset` for `getRandomInRange(-150, 0)`, and `colorIdx` / `emojiIdx` for
the random array indices drawn inside `getRandomItem`. -/
structure ConfettiRand where
  speedFactor : ℚ
  finalSpeedX : ℚ
  rotationBase : ℚ
  dragCoefficient : ℚ
  rotationAngle : ℚ
  emojiRotationAngle : ℚ
  absCos : ℚ
  absSin : ℚ
  offset : ℚ
  colorIdx : Nat
  emojiIdx : Nat
deriving DecidableEq, Repr

/-- `Utils.getRandomItem`: `array[Math.floor(Math.random() * array.length)]`,
with the random index embedded as `k % length`; the empty array yields
JS `undefined`, embedded as `none`. -/
def getRandomItem (l : List String) (k : Nat) : Option String :=
  l.get? (k % l.length)

/-- The state of one `Confetti` instance: the fields the constructor sets. -/
structure Confetti where
  speed : Vec2
  finalSpeedX : ℚ
  rotationSpeed : ℚ
  dragCoefficient : ℚ
  radius : Vec2
  initialRadius : ℚ
  rotationAngle : ℚ
  emojiRotationAngle : ℚ
  radiusYDirection : RadiusYDir
  absCos : ℚ
  absSin : ℚ
  position : Vec2
  initialPosition : Vec2
  color : Option String
  emoji : Option String
  svgIconProvided : Bool
  svgIcon : Bool
  createdAt : ℚ
  direction : Direction
deriving DecidableEq, Repr

/-- The `Confetti` constructor. `emojis.length || svgIcon` is the JS
truthiness test deciding glyph configuration; `now` is `Date.now()`. -/
def mkConfetti (initialPosition : Vec2) (direction : Direction) (radius : ℚ)
    (colors emojis : List String) (svgIcon : Option String)
    (r : ConfettiRand) (now : ℚ) : Confetti :=
  let hasGlyphCfg : Bool := emojis.length != 0 || svgIcon.isSome
  let position : Vec2 :=
    ⟨initialPosition.x +
       (match direction with
        | Direction.left => -r.offset
        | Direction.right => r.offset) * r.absCos,
     initialPosition.y - r.offset * r.absSin⟩
  { speed := ⟨r.speedFactor, r.speedFactor⟩
    finalSpeedX := r.finalSpeedX
    rotationSpeed := if hasGlyphCfg then 0.01 else r.rotationBase
    dragCoefficient := r.dragCoefficient
    radius := ⟨radius, radius⟩
    initialRadius := radius
    rotationAngle := r.rotationAngle
    emojiRotationAngle := r.emojiRotationAngle
    radiusYDirection := RadiusYDir.down
    absCos := r.absCos
    absSin := r.absSin
    position := position
    initialPosition := position
    color := if hasGlyphCfg then none else getRandomItem colors r.colorIdx
    emoji := if emojis.length != 0 then getRandomItem emojis r.emojiIdx else none
    svgIconProvided := svgIcon.isSome
    svgIcon := false
    createdAt := now
    direction := direction }

/-- The `svgImage.onload` handler: it exists only when an icon URL was
supplied, and then marks the icon ready (`this.svgIcon = this.svgImage`). -/
def svgIconLoad (c : Confetti) : Confetti :=
  if c.svgIconProvided then { c with svgIcon := true } else c

/-- The sign factor `direction === "left" ? -absCos : absCos` of the
horizontal integration step. -/
def dirSign (c : Confetti) : ℚ :=
  match c.direction with
  | Direction.left => -c.absCos
  | Direction.right => c.absCos

/-- The tumble block of `updatePosition` (the body of
`if (!this.emoji && !this.svgIcon)`): decay `rotationSpeed` with a floor at
0, then move `radius.y` and flip `radiusYDirection` with clamping at `0`
and `initialRadius`. -/
def tumbleStep (c : Confetti) (deltaTime : ℚ) : Confetti :=
  let rs := max (c.rotationSpeed - 0.00001 * deltaTime) 0
  match c.radiusYDirection with
  | RadiusYDir.down =>
      let ry := c.radius.y - deltaTime * rs
      if ry ≤ 0 then
        { c with rotationSpeed := rs, radius := ⟨c.radius.x, 0⟩,
                 radiusYDirection := RadiusYDir.up }
      else
        { c with rotationSpeed := rs, radius := ⟨c.radius.x, ry⟩ }
  | RadiusYDir.up =>
      let ry := c.radius.y + deltaTime * rs
      if c.initialRadius ≤ ry then
        { c with rotationSpeed := rs, radius := ⟨c.radius.x, c.initialRadius⟩,
                 radiusYDirection := RadiusYDir.down }
      else
        { c with rotationSpeed := rs, radius := ⟨c.radius.x, ry⟩ }

/-- `Confetti.updatePosition(deltaTime, currentTime)`: drag decay on
`speed.x` while above `finalSpeedX`, per-frame horizontal integration,
the age-based vertical fall formula
`initialPosition.y - speed.y * absSin * elapsed + (0.00125 * elapsed^2) / 2`,
then the tumble block when the particle shows neither an emoji nor a
ready icon. -/
def Confetti.updatePosition (c : Confetti) (deltaTime currentTime : ℚ) : Confetti :=
  let elapsed := currentTime - c.createdAt
  let newSpeedX :=
    if c.finalSpeedX < c.speed.x then c.speed.x - c.dragCoefficient * deltaTime
    else c.speed.x
  let c1 :=
    { c with
      speed := ⟨newSpeedX, c.speed.y⟩
      position :=
        ⟨c.position.x + newSpeedX * dirSign c * deltaTime,
         c.initialPosition.y - c.speed.y * c.absSin * elapsed +
           0.00125 * elapsed ^ 2 / 2⟩ }
  if c.emoji = none ∧ c.svgIcon = false then tumbleStep c1 deltaTime else c1

/-- `Confetti.isVisible(canvasHeight)`: `position.y < canvasHeight + 100`. -/
def Confetti.isVisible (c : Confetti) (canvasHeight : ℚ) : Bool :=
  decide (c.position.y < canvasHeight + 100)

/-- Apply a sequence of `updatePosition` calls, each with its own
`(deltaTime, currentTime)` pair, in order. -/
def applyUpdates (c : Confetti) (l : List (ℚ × ℚ)) : Confetti :=
  l.foldl (fun acc p => acc.updatePosition p.1 p.2) c

/-- `defaultConfettiConfig.confettiColors`, the 8-color default palette. -/
def defaultColors : List String :=
  ["#fcf403", "#62fc03", "#f4fc03", "#03e7fc",
   "#03fca5", "#a503fc", "#fc03ad", "#fc03c2"]

/-- A call-site config object for `addConfetti`: `none` in a field means
the key is absent (or JS `null` for `svgIcon`), so the spread
`{...defaultConfettiConfig, ...config}` keeps the default. -/
structure ConfettiConfig where
  confettiesNumber : Option ℚ
  confettiRadius : Option ℚ
  confettiColors : Option (List String)
  emojies : Option (List String)
  svgIcon : Option String
deriving DecidableEq, Repr

/-- The empty config `{}` (every default applies). -/
def emptyConfig : ConfettiConfig := ⟨none, none, none, none, none⟩

/-- The state of the `ConfettiManager`: its canvas pixel dimensions, the
live particle array `this.confetti`, and `this.lastUpdated`. -/
structure ConfettiManager where
  canvasWidth : ℚ
  canvasHeight : ℚ
  confetti : List Confetti
  lastUpdated : ℚ
deriving DecidableEq, Repr

/-- `ConfettiManager.resizeCanvas`: set the canvas pixel dimensions to
`window.innerWidth * devicePixelRatio` by `window.innerHeight * devicePixelRatio`. -/
def ConfettiManager.resizeCanvas (m : ConfettiManager)
    (innerWidth innerHeight dpr : ℚ) : ConfettiManager :=
  { m with canvasWidth := innerWidth * dpr, canvasHeight := innerHeight * dpr }

/-- Number of iterations of the JS loop `for (let i = 0; i < bound; i++)`
with a (possibly fractional) numeric `bound`: the number of naturals `i`
with `(i : ℚ) < bound`, which is `max 0 ⌈bound⌉`. -/
def jsLoopIterations (bound : ℚ) : Nat :=
  (⌈bound⌉).toNat

/-- The particles one run of the spawn loop pushes, in push order:
iteration `i` first pushes a `direction="right"` particle launched from
`(0, baseY)`, then a `direction="left"` particle launched from
`(innerWidth, baseY)`; `gen i d` supplies the random draws of iteration
`i`'s particle of direction `d`. -/
def spawnList (innerWidth baseY radius : ℚ) (colors emojis : List String)
    (svgIcon : Option String) (gen : Nat → Direction → ConfettiRand)
    (now : ℚ) : Nat → List Confetti
  | 0 => []
  | n + 1 =>
      spawnList innerWidth baseY radius colors emojis svgIcon gen now n ++
        [mkConfetti ⟨0, baseY⟩ Direction.right radius colors emojis svgIcon
           (gen n Direction.right) now,
         mkConfetti ⟨innerWidth, baseY⟩ Direction.left radius colors emojis svgIcon
           (gen n Direction.left) now]

/-- `ConfettiManager.addConfetti(config)`: merge `config` over the
defaults, compute `baseY = 5 * window.innerHeight / 7`, and run
`for (let i = 0; i < confettiesNumber / 2; i++)` pushing one right-directed
and one left-directed particle per iteration. -/
def ConfettiManager.addConfetti (m : ConfettiManager)
    (innerWidth innerHeight : ℚ) (cfg : ConfettiConfig)
    (gen : Nat → Direction → ConfettiRand) (now : ℚ) : ConfettiManager :=
  let count := cfg.confettiesNumber.getD 100
  let radius := cfg.confettiRadius.getD 4
  let colors := cfg.confettiColors.getD defaultColors
  let emojis := cfg.emojies.getD []
  let baseY := 5 * innerHeight / 7
  let n := jsLoopIterations (count / 2)
  { m with
    confetti :=
      m.confetti ++
        spawnList innerWidth baseY radius colors emojis cfg.svgIcon gen now n }

/-- `ConfettiManager.resetAndStart(config)`: clear `this.confetti`, then
`addConfetti(config)`. -/
def ConfettiManager.resetAndStart (m : ConfettiManager)
    (innerWidth innerHeight : ℚ) (cfg : ConfettiConfig)
    (gen : Nat → Direction → ConfettiRand) (now : ℚ) : ConfettiManager :=
  ConfettiManager.addConfetti { m with confetti := [] }
    innerWidth innerHeight cfg gen now

/-- One pass of `ConfettiManager.loop()` at time `currentTime`: compute
`deltaTime`, update every particle, and keep exactly those for which
`isVisible(this.canvas.height)` holds afterwards (the source's
mutate-inside-`filter` idiom). Drawing has no effect on this state. -/
def ConfettiManager.loop (m : ConfettiManager) (currentTime : ℚ) : ConfettiManager :=
  let deltaTime := currentTime - m.lastUpdated
  { m with
    lastUpdated := currentTime
    confetti :=
      (m.confetti.map (fun item => item.updatePosition deltaTime currentTime)).filter
        (fun item => item.isVisible m.canvasHeight) }

/-! ### Concrete sample states used to evaluate the development -/

/-- A fixed tuple of random draws (integral values, so evaluation is
exact): speed factor 1, final horizontal speed 2, rotation base 3,
drag coefficient 1, launch-angle magnitudes 1, spawn offset −10. -/
def rSample : ConfettiRand := ⟨1, 2, 3, 1, 0, 0, 1, 1, -10, 0, 0⟩

/-- A draw tuple whose `finalSpeedX` lies below the initial speed:
speed factor 5, final horizontal speed 2. -/
def rFast : ConfettiRand := ⟨5, 2, 3, 1, 0, 0, 1, 1, -10, 0, 0⟩

/-- The constant draw source feeding `rSample` to every particle. -/
def genSample : Nat → Direction → ConfettiRand := fun _ _ => rSample

/-- A plain color particle: no emojis, no icon, radius 4, launched right
from `(0, 500)` at time 0. Its sampled speed 1 is already at or below its
`finalSpeedX` 2. -/
def cPlain : Confetti :=
  mkConfetti ⟨0, 500⟩ Direction.right 4 defaultColors [] none rSample 0

/-- An emoji particle (glyph `"e1"`), radius 4, launched right from
`(0, 500)` at time 0. -/
def cEmoji : Confetti :=
  mkConfetti ⟨0, 500⟩ Direction.right 4 defaultColors ["e1"] none rSample 0

/-- An icon particle (icon URL supplied, not yet loaded), radius 4,
launched right from `(0, 500)` at time 0. -/
def cIcon : Confetti :=
  mkConfetti ⟨0, 500⟩ Direction.right 4 defaultColors [] (some "icon.svg")
    rSample 0

/-- A particle launched from `(0, 1000)`; its start position is
`(10, 1010)`, far below a height-100 canvas. -/
def cFall : Confetti :=
  mkConfetti ⟨0, 1000⟩ Direction.right 4 defaultColors [] none rSample 0

/-- The manager state right after construction on an empty page: zero
canvas, no particles, last tick 0. -/
def mEmpty : ConfettiManager := ⟨0, 0, [], 0⟩

/-- A manager whose canvas is 800×100 holding the single particle
`cFall`. -/
def mFall : ConfettiManager := ⟨800, 100, [cFall], 0⟩

/-- The config `{count: 10}` of the spec's example. -/
def cfg10 : ConfettiConfig := ⟨some 10, none, none, none, none⟩

/-- The config `{count: 11}`, an odd particle count. -/
def cfg11 : ConfettiConfig := ⟨some 11, none, none, none, none⟩

/-! ### Shape lemmas: which fields each step can touch -/

/-- The tumble block touches only `rotationSpeed`, `radius.y` and
`radiusYDirection`. -/
theorem tumbleStep_shape (c : Confetti) (dt : ℚ) :
    ∃ rs ry rd, tumbleStep c dt =
      { c with rotationSpeed := rs, radius := ⟨c.radius.x, ry⟩,
               radiusYDirection := rd } := by
  cases hd : c.radiusYDirection <;> simp only [tumbleStep, hd] <;> split <;>
    exact ⟨_, _, _, rfl⟩

/-- `updatePosition` touches only `speed.x`, `position`, `rotationSpeed`,
`radius.y` and `radiusYDirection`. -/
theorem updatePosition_shape (c : Confetti) (dt t : ℚ) :
    ∃ sx px py rs ry rd, c.updatePosition dt t =
      { c with speed := ⟨sx, c.speed.y⟩, position := ⟨px, py⟩,
               rotationSpeed := rs, radius := ⟨c.radius.x, ry⟩,
               radiusYDirection := rd } := by
  simp only [Confetti.updatePosition]
  split
  · obtain ⟨rs, ry, rd, h⟩ := tumbleStep_shape _ dt
    rw [h]
    exact ⟨_, _, _, rs, ry, rd, rfl⟩
  · exact ⟨_, _, _, c.rotationSpeed, c.radius.y, c.radiusYDirection, rfl⟩

/-- `updatePosition` preserves every creation-time field. -/
@[simp] theorem updatePosition_createdAt (c : Confetti) (dt t : ℚ) :
    (c.updatePosition dt t).createdAt = c.createdAt := by
  obtain ⟨_, _, _, _, _, _, h⟩ := updatePosition_shape c dt t; rw [h]

/-- `updatePosition` preserves `initialPosition`. -/
@[simp] theorem updatePosition_initialPosition (c : Confetti) (dt t : ℚ) :
    (c.updatePosition dt t).initialPosition = c.initialPosition := by
  obtain ⟨_, _, _, _, _, _, h⟩ := updatePosition_shape c dt t; rw [h]

/-- `updatePosition` preserves the vertical speed. -/
@[simp] theorem updatePosition_speed_y (c : Confetti) (dt t : ℚ) :
    (c.updatePosition dt t).speed.y = c.speed.y := by
  obtain ⟨_, _, _, _, _, _, h⟩ := updatePosition_shape c dt t; rw [h]

/-- `updatePosition` preserves `absCos`. -/
@[simp] theorem updatePosition_absCos (c : Confetti) (dt t : ℚ) :
    (c.updatePosition dt t).absCos = c.absCos := by
  obtain ⟨_, _, _, _, _, _, h⟩ := updatePosition_shape c dt t; rw [h]

/-- `updatePosition` preserves `absSin`. -/
@[simp] theorem updatePosition_absSin (c : Confetti) (dt t : ℚ) :
    (c.updatePosition dt t).absSin = c.absSin := by
  obtain ⟨_, _, _, _, _, _, h⟩ := updatePosition_shape c dt t; rw [h]

/-- `updatePosition` preserves `direction`. -/
@[simp] theorem updatePosition_direction (c : Confetti) (dt t : ℚ) :
    (c.updatePosition dt t).direction = c.direction := by
  obtain ⟨_, _, _, _, _, _, h⟩ := updatePosition_shape c dt t; rw [h]

/-- `updatePosition` preserves `emoji`. -/
@[simp] theorem updatePosition_emoji (c : Confetti) (dt t : ℚ) :
    (c.updatePosition dt t).emoji = c.emoji := by
  obtain ⟨_, _, _, _, _, _, h⟩ := updatePosition_shape c dt t; rw [h]

/-- `updatePosition` preserves the icon readiness flag. -/
@[simp] theorem updatePosition_svgIcon (c : Confetti) (dt t : ℚ) :
    (c.updatePosition dt t).svgIcon = c.svgIcon := by
  obtain ⟨_, _, _, _, _, _, h⟩ := updatePosition_shape c dt t; rw [h]

/-- `updatePosition` preserves `svgIconProvided`. -/
@[simp] theorem updatePosition_svgIconProvided (c : Confetti) (dt t : ℚ) :
    (c.updatePosition dt t).svgIconProvided = c.svgIconProvided := by
  obtain ⟨_, _, _, _, _, _, h⟩ := updatePosition_shape c dt t; rw [h]

/-- `updatePosition` preserves `finalSpeedX`. -/
@[simp] theorem updatePosition_finalSpeedX (c : Confetti) (dt t : ℚ) :
    (c.updatePosition dt t).finalSpeedX = c.finalSpeedX := by
  obtain ⟨_, _, _, _, _, _, h⟩ := updatePosition_shape c dt t; rw [h]

/-- `updatePosition` preserves `dragCoefficient`. -/
@[simp] theorem updatePosition_dragCoefficient (c : Confetti) (dt t : ℚ) :
    (c.updatePosition dt t).dragCoefficient = c.dragCoefficient := by
  obtain ⟨_, _, _, _, _, _, h⟩ := updatePosition_shape c dt t; rw [h]

/-- `updatePosition` preserves `initialRadius`. -/
@[simp] theorem updatePosition_initialRadius (c : Confetti) (dt t : ℚ) :
    (c.updatePosition dt t).initialRadius = c.initialRadius := by
  obtain ⟨_, _, _, _, _, _, h⟩ := updatePosition_shape c dt t; rw [h]

/-- `updatePosition` preserves `color`. -/
@[simp] theorem updatePosition_color (c : Confetti) (dt t : ℚ) :
    (c.updatePosition dt t).color = c.color := by
  obtain ⟨_, _, _, _, _, _, h⟩ := updatePosition_shape c dt t; rw [h]

/-- `updatePosition` preserves the horizontal radius. -/
@[simp] theorem updatePosition_radius_x (c : Confetti) (dt t : ℚ) :
    (c.updatePosition dt t).radius.x = c.radius.x := by
  obtain ⟨_, _, _, _, _, _, h⟩ := updatePosition_shape c dt t; rw [h]

/-- `applyUpdates` preserves every creation-time field. -/
theorem applyUpdates_fields (c : Confetti) (l : List (ℚ × ℚ)) :
    (applyUpdates c l).createdAt = c.createdAt ∧
    (applyUpdates c l).initialPosition = c.initialPosition ∧
    (applyUpdates c l).speed.y = c.speed.y ∧
    (applyUpdates c l).absCos = c.absCos ∧
    (applyUpdates c l).absSin = c.absSin ∧
    (applyUpdates c l).direction = c.direction ∧
    (applyUpdates c l).emoji = c.emoji ∧
    (applyUpdates c l).svgIcon = c.svgIcon ∧
    (applyUpdates c l).svgIconProvided = c.svgIconProvided ∧
    (applyUpdates c l).finalSpeedX = c.finalSpeedX ∧
    (applyUpdates c l).dragCoefficient = c.dragCoefficient ∧
    (applyUpdates c l).initialRadius = c.initialRadius ∧
    (applyUpdates c l).color = c.color ∧
    (applyUpdates c l).radius.x = c.radius.x := by
  induction l generalizing c with
  | nil => exact ⟨rfl, rfl, rfl, rfl, rfl, rfl, rfl, rfl, rfl, rfl, rfl, rfl, rfl, rfl⟩
  | cons p l ih =>
      have h2 := ih (c.updatePosition p.1 p.2)
      simp only [applyUpdates, List.foldl_cons] at h2 ⊢
      simpa using h2

/-- The exact values `updatePosition` assigns to `speed.x` and
`position`. -/
theorem updatePosition_core (c : Confetti) (dt t : ℚ) :
    (c.updatePosition dt t).speed.x =
      (if c.finalSpeedX < c.speed.x then c.speed.x - c.dragCoefficient * dt
       else c.speed.x) ∧
    (c.updatePosition dt t).position.x =
      c.position.x +
        (if c.finalSpeedX < c.speed.x then c.speed.x - c.dragCoefficient * dt
         else c.speed.x) * dirSign c * dt ∧
    (c.updatePosition dt t).position.y =
      c.initialPosition.y - c.speed.y * c.absSin * (t - c.createdAt) +
        0.00125 * (t - c.createdAt) ^ 2 / 2 := by
  simp only [Confetti.updatePosition]
  split
  · obtain ⟨rs, ry, rd, h⟩ := tumbleStep_shape _ dt
    rw [h]
    exact ⟨rfl, rfl, rfl⟩
  · exact ⟨rfl, rfl, rfl⟩

/-- `dirSign` depends only on `direction` and `absCos`. -/
theorem dirSign_congr {a b : Confetti} (h1 : a.direction = b.direction)
    (h2 : a.absCos = b.absCos) : dirSign a = dirSign b := by
  unfold dirSign
  rw [h1, h2]

/-- When `speed.x` is already at or below `finalSpeedX`, the drag branch
is skipped and `speed.x` is unchanged. -/
theorem updatePosition_speedX_of_le (c : Confetti) (dt t : ℚ)
    (h : c.speed.x ≤ c.finalSpeedX) :
    (c.updatePosition dt t).speed.x = c.speed.x := by
  rw [(updatePosition_core c dt t).1, if_neg (not_lt.mpr h)]

/-- **C2.** For every particle and every `update(deltaTimeMs, nowMs)`
call — no matter how many prior updates ran — the new vertical position is
`initialPosition.y − speed.y · absSin · elapsed + 0.000625 · elapsed²`
with `elapsed = nowMs − createdAt`, a function of absolute particle age
only; the horizontal position, by contrast, is integrated per frame as
`position.x += speed.x · (direction==left ? −absCos : absCos) · deltaTime`
(with the frame's freshly decayed `speed.x`). -/
theorem updatePosition_kinematics (c : Confetti) (l : List (ℚ × ℚ)) (dt t : ℚ) :
    ((applyUpdates c l).updatePosition dt t).position.y =
      c.initialPosition.y - c.speed.y * c.absSin * (t - c.createdAt) +
        0.000625 * (t - c.createdAt) ^ 2 ∧
    ((applyUpdates c l).updatePosition dt t).position.x =
      (applyUpdates c l).position.x +
        ((applyUpdates c l).updatePosition dt t).speed.x * dirSign c * dt := by
  obtain ⟨f1, f2, f3, f4, f5, f6, -⟩ := applyUpdates_fields c l
  obtain ⟨g1, g2, g3⟩ := updatePosition_core (applyUpdates c l) dt t
  constructor
  · rw [g3, f1, f2, f3, f5]
    ring_nf
  · rw [g2, g1, dirSign_congr f6 f4]

/-- **C4.** Once `speed.x ≤ finalSpeedX` holds, no further sequence of
update calls ever lets `speed.x` exceed `finalSpeedX` again: the decay has
a monotonic floor (in fact the guard `speed.x > finalSpeedX` then never
fires, so `speed.x` stays constant). -/
theorem speedX_floor_monotone (c : Confetti) (h : c.speed.x ≤ c.finalSpeedX)
    (l : List (ℚ × ℚ)) :
    (applyUpdates c l).speed.x ≤ c.finalSpeedX := by
  induction l generalizing c with
  | nil => exact h
  | cons p l ih =>
      have h2 : (c.updatePosition p.1 p.2).speed.x ≤
          (c.updatePosition p.1 p.2).finalSpeedX := by
        rw [updatePosition_speedX_of_le c p.1 p.2 h, updatePosition_finalSpeedX]
        exact h
      have h3 := ih (c.updatePosition p.1 p.2) h2
      rw [updatePosition_finalSpeedX] at h3
      simpa only [applyUpdates, List.foldl_cons] using h3

/-- Witness for C4 at the particle `cPlain` (speed 1, floor 2) over two
frames. -/
theorem speedX_floor_monotone_witness :
    cPlain.speed.x ≤ cPlain.finalSpeedX ∧
    (applyUpdates cPlain [(16, 16), (20, 36)]).speed.x ≤ cPlain.finalSpeedX := by
  have h : cPlain.speed.x ≤ cPlain.finalSpeedX := by
    norm_num [cPlain, mkConfetti, rSample]
  exact ⟨h, speedX_floor_monotone cPlain h [(16, 16), (20, 36)]⟩

/-- Field values of a freshly constructed particle: radius. -/
@[simp] theorem mkConfetti_radius (p : Vec2) (d : Direction) (rad : ℚ)
    (cs es : List String) (ic : Option String) (r : ConfettiRand) (now : ℚ) :
    (mkConfetti p d rad cs es ic r now).radius = ⟨rad, rad⟩ := rfl

/-- Field values of a freshly constructed particle: initial radius. -/
@[simp] theorem mkConfetti_initialRadius (p : Vec2) (d : Direction) (rad : ℚ)
    (cs es : List String) (ic : Option String) (r : ConfettiRand) (now : ℚ) :
    (mkConfetti p d rad cs es ic r now).initialRadius = rad := rfl

/-- Field values of a freshly constructed particle: direction. -/
@[simp] theorem mkConfetti_direction (p : Vec2) (d : Direction) (rad : ℚ)
    (cs es : List String) (ic : Option String) (r : ConfettiRand) (now : ℚ) :
    (mkConfetti p d rad cs es ic r now).direction = d := rfl

/-- Field values of a freshly constructed particle: creation time. -/
@[simp] theorem mkConfetti_createdAt (p : Vec2) (d : Direction) (rad : ℚ)
    (cs es : List String) (ic : Option String) (r : ConfettiRand) (now : ℚ) :
    (mkConfetti p d rad cs es ic r now).createdAt = now := rfl

/-- A fresh particle's icon is never ready yet. -/
@[simp] theorem mkConfetti_svgIcon (p : Vec2) (d : Direction) (rad : ℚ)
    (cs es : List String) (ic : Option String) (r : ConfettiRand) (now : ℚ) :
    (mkConfetti p d rad cs es ic r now).svgIcon = false := rfl

/-- A fresh particle records whether an icon URL was supplied. -/
@[simp] theorem mkConfetti_svgIconProvided (p : Vec2) (d : Direction) (rad : ℚ)
    (cs es : List String) (ic : Option String) (r : ConfettiRand) (now : ℚ) :
    (mkConfetti p d rad cs es ic r now).svgIconProvided = ic.isSome := rfl

/-- One tumble step keeps `radius.y` inside `[0, initialRadius]` when it
starts there, the radius is sane and the time step is non-negative. -/
theorem tumbleStep_radiusY_bound (c : Confetti) (dt : ℚ) (hdt : 0 ≤ dt)
    (h0 : 0 ≤ c.radius.y) (h1 : c.radius.y ≤ c.initialRadius)
    (hR : 0 ≤ c.initialRadius) :
    0 ≤ (tumbleStep c dt).radius.y ∧
    (tumbleStep c dt).radius.y ≤ c.initialRadius := by
  have hrs : (0:ℚ) ≤ max (c.rotationSpeed - 0.00001 * dt) 0 := le_max_right _ _
  have hprod : (0:ℚ) ≤ dt * max (c.rotationSpeed - 0.00001 * dt) 0 :=
    mul_nonneg hdt hrs
  cases hd : c.radiusYDirection
  · simp only [tumbleStep, hd]
    split
    · exact ⟨le_refl 0, hR⟩
    · rename_i hcond
      push_neg at hcond
      exact ⟨le_of_lt hcond, by linarith⟩
  · simp only [tumbleStep, hd]
    split
    · exact ⟨hR, le_refl _⟩
    · rename_i hcond
      push_neg at hcond
      exact ⟨by linarith, le_of_lt hcond⟩

/-- One full update keeps `radius.y` inside `[0, initialRadius]`. -/
theorem updatePosition_radiusY_bound (c : Confetti) (dt t : ℚ) (hdt : 0 ≤ dt)
    (h0 : 0 ≤ c.radius.y) (h1 : c.radius.y ≤ c.initialRadius)
    (hR : 0 ≤ c.initialRadius) :
    0 ≤ (c.updatePosition dt t).radius.y ∧
    (c.updatePosition dt t).radius.y ≤ c.initialRadius := by
  simp only [Confetti.updatePosition]
  split
  · exact tumbleStep_radiusY_bound _ dt hdt h0 h1 hR
  · exact ⟨h0, h1⟩

/-- Any sequence of updates with non-negative time steps keeps `radius.y`
inside `[0, initialRadius]`. -/
theorem applyUpdates_radiusY_bound (c : Confetti) (l : List (ℚ × ℚ))
    (hl : ∀ p ∈ l, 0 ≤ p.1) (h0 : 0 ≤ c.radius.y)
    (h1 : c.radius.y ≤ c.initialRadius) (hR : 0 ≤ c.initialRadius) :
    0 ≤ (applyUpdates c l).radius.y ∧
    (applyUpdates c l).radius.y ≤ c.initialRadius := by
  induction l generalizing c with
  | nil => exact ⟨h0, h1⟩
  | cons p l ih =>
      have hdt : 0 ≤ p.1 := hl p (List.mem_cons_self _ _)
      have hb := updatePosition_radiusY_bound c p.1 p.2 hdt h0 h1 hR
      have h1x : (c.updatePosition p.1 p.2).radius.y ≤
          (c.updatePosition p.1 p.2).initialRadius := by
        rw [updatePosition_initialRadius]; exact hb.2
      have hRx : 0 ≤ (c.updatePosition p.1 p.2).initialRadius := by
        rw [updatePosition_initialRadius]; exact hR
      have h3 := ih (c.updatePosition p.1 p.2)
        (fun q hq => hl q (List.mem_cons_of_mem _ hq)) hb.1 h1x hRx
      rw [updatePosition_initialRadius] at h3
      simpa only [applyUpdates, List.foldl_cons] using h3

/-- **C5.** A particle created with no glyph (no emojis, no icon) and a
non-negative radius keeps `radius.y` within `[0, initialRadius]` after
every one of arbitrarily many update calls with non-negative deltaTime:
the tumble oscillation clamps at both ends. -/
theorem radiusY_bounded (pos : Vec2) (d : Direction) (radius : ℚ)
    (colors : List String) (r : ConfettiRand) (now : ℚ) (hrad : 0 ≤ radius)
    (l : List (ℚ × ℚ)) (hl : ∀ p ∈ l, 0 ≤ p.1) :
    0 ≤ (applyUpdates (mkConfetti pos d radius colors [] none r now) l).radius.y ∧
    (applyUpdates (mkConfetti pos d radius colors [] none r now) l).radius.y ≤
      radius := by
  have h := applyUpdates_radiusY_bound
    (mkConfetti pos d radius colors [] none r now) l hl
    (by simp; exact hrad) (by simp) (by simp; exact hrad)
  simpa using h

/-- Witness for C5 at the plain particle of radius 4 over two frames. -/
theorem radiusY_bounded_witness :
    (0:ℚ) ≤ 4 ∧
    (∀ p ∈ [((16:ℚ), (16:ℚ)), (20, 36)], (0:ℚ) ≤ p.1) ∧
    (0 ≤ (applyUpdates (mkConfetti ⟨0, 500⟩ Direction.right 4 defaultColors []
            none rSample 0) [(16, 16), (20, 36)]).radius.y ∧
     (applyUpdates (mkConfetti ⟨0, 500⟩ Direction.right 4 defaultColors []
            none rSample 0) [(16, 16), (20, 36)]).radius.y ≤ 4) := by
  have hl : ∀ p ∈ [((16:ℚ), (16:ℚ)), (20, 36)], (0:ℚ) ≤ p.1 := by
    intro p hp
    rcases List.mem_cons.mp hp with rfl | hp
    · norm_num
    · rcases List.mem_cons.mp hp with rfl | hp
      · norm_num
      · cases hp
  exact ⟨by norm_num, hl,
    radiusY_bounded ⟨0, 500⟩ Direction.right 4 defaultColors rSample 0
      (by norm_num) [(16, 16), (20, 36)] hl⟩

/-- **C3.** `isVisible(surfaceHeight)` is true exactly when
`position.y < surfaceHeight + 100`; each pass of the frame loop keeps only
particles satisfying this bound, and a particle whose update made the
predicate false is gone from the collection that very frame. -/
theorem loop_visibility_invariant (m : ConfettiManager) (t : ℚ) :
    (∀ (c : Confetti) (hgt : ℚ), c.isVisible hgt = true ↔ c.position.y < hgt + 100) ∧
    (∀ c ∈ (m.loop t).confetti, c.position.y < m.canvasHeight + 100) ∧
    (∀ c ∈ m.confetti,
       (c.updatePosition (t - m.lastUpdated) t).isVisible m.canvasHeight = false →
       c.updatePosition (t - m.lastUpdated) t ∉ (m.loop t).confetti) := by
  have hvis : ∀ (c : Confetti) (hgt : ℚ),
      c.isVisible hgt = true ↔ c.position.y < hgt + 100 := by
    intro c hgt
    simp [Confetti.isVisible]
  refine ⟨hvis, ?_, ?_⟩
  · intro c hc
    simp only [ConfettiManager.loop, List.mem_filter] at hc
    exact (hvis c m.canvasHeight).mp hc.2
  · intro c _ hfalse hmem
    simp only [ConfettiManager.loop, List.mem_filter] at hmem
    rw [hfalse] at hmem
    exact Bool.false_ne_true hmem.2

/-- Witness for C3: the particle of `mFall` sits at `y = 1010`, far past
the height-100 canvas bound, and is dropped by the very frame that
processed it. -/
theorem loop_visibility_invariant_witness :
    (cFall.updatePosition (0 - mFall.lastUpdated) 0).isVisible mFall.canvasHeight
      = false ∧
    cFall.updatePosition (0 - mFall.lastUpdated) 0 ∉ (mFall.loop 0).confetti := by
  have hf : (cFall.updatePosition (0 - mFall.lastUpdated) 0).isVisible
      mFall.canvasHeight = false := by
    norm_num [cFall, mFall, mkConfetti, rSample, Confetti.updatePosition,
      tumbleStep, dirSign, Confetti.isVisible]
  exact ⟨hf, (loop_visibility_invariant mFall 0).2.2 cFall (by simp [mFall]) hf⟩

/-- **C6.** `resetAndStart(config)` on any manager produces exactly the
particle collection `spawnBurst(config)` produces on an empty manager:
the prior particles are gone. -/
theorem resetAndStart_eq_fresh_spawn (m mE : ConfettiManager) (w h : ℚ)
    (cfg : ConfettiConfig) (gen : Nat → Direction → ConfettiRand) (now : ℚ)
    (hE : mE.confetti = []) :
    (m.resetAndStart w h cfg gen now).confetti =
      (mE.addConfetti w h cfg gen now).confetti := by
  simp [ConfettiManager.resetAndStart, ConfettiManager.addConfetti, hE]

/-- Witness for C6: resetting a one-particle manager matches a fresh
burst on the empty manager. -/
theorem resetAndStart_eq_fresh_spawn_witness :
    mEmpty.confetti = [] ∧
    (mFall.resetAndStart 1000 700 cfg10 genSample 0).confetti =
      (mEmpty.addConfetti 1000 700 cfg10 genSample 0).confetti :=
  ⟨rfl, resetAndStart_eq_fresh_spawn mFall mEmpty 1000 700 cfg10 genSample 0 rfl⟩

/-- **C7.** After `resize(w, h)` with device pixel ratio `dpr`, the
surface dimensions read back exactly `(w·dpr, h·dpr)`; a second identical
resize changes nothing (idempotence). -/
theorem resizeCanvas_roundtrip_idempotent (m : ConfettiManager) (w h dpr : ℚ) :
    (m.resizeCanvas w h dpr).canvasWidth = w * dpr ∧
    (m.resizeCanvas w h dpr).canvasHeight = h * dpr ∧
    (m.resizeCanvas w h dpr).resizeCanvas w h dpr = m.resizeCanvas w h dpr :=
  ⟨rfl, rfl, rfl⟩

/-- The constructor's color rule, unfolded. -/
theorem mkConfetti_color (p : Vec2) (d : Direction) (rad : ℚ)
    (cs es : List String) (ic : Option String) (r : ConfettiRand) (now : ℚ) :
    (mkConfetti p d rad cs es ic r now).color =
      if (es.length != 0 || ic.isSome) = true then none
      else getRandomItem cs r.colorIdx := rfl

/-- The constructor's emoji rule, unfolded. -/
theorem mkConfetti_emoji (p : Vec2) (d : Direction) (rad : ℚ)
    (cs es : List String) (ic : Option String) (r : ConfettiRand) (now : ℚ) :
    (mkConfetti p d rad cs es ic r now).emoji =
      if (es.length != 0) = true then getRandomItem es r.emojiIdx
      else none := rfl

/-- The constructor's rotation-speed rule, unfolded. -/
theorem mkConfetti_rotationSpeed (p : Vec2) (d : Direction) (rad : ℚ)
    (cs es : List String) (ic : Option String) (r : ConfettiRand) (now : ℚ) :
    (mkConfetti p d rad cs es ic r now).rotationSpeed =
      if (es.length != 0 || ic.isSome) = true then 0.01
      else r.rotationBase := rfl

/-- The JS truthiness test `emojis.length || svgIcon`, as a proposition. -/
theorem glyphCfg_iff (es : List String) (ic : Option String) :
    ((es.length != 0 || ic.isSome) = true) ↔ (es ≠ [] ∨ ic.isSome = true) := by
  simp [List.length_eq_zero]

/-- Picking a random item from a non-empty array yields one of its
elements. -/
theorem getRandomItem_mem (l : List String) (k : Nat) (h : l ≠ []) :
    ∃ s ∈ l, getRandomItem l k = some s := by
  have hlen : k % l.length < l.length := Nat.mod_lt _ (List.length_pos.mpr h)
  refine ⟨l.get ⟨k % l.length, hlen⟩, List.get_mem l _ _, ?_⟩
  unfold getRandomItem
  exact List.get?_eq_get hlen

/-- **C8.** At creation (with the contract's non-empty `colors`): the
particle's color is `null` exactly when `emojis` is non-empty or an icon
is supplied, and otherwise an element of `colors`; the emoji is an element
of `emojis` when non-empty and `null` otherwise; no particle carries both
a color and a glyph. -/
theorem visual_identity_exclusive (pos : Vec2) (d : Direction) (radius : ℚ)
    (colors emojis : List String) (icon : Option String) (r : ConfettiRand)
    (now : ℚ) (hcol : colors ≠ []) :
    ((mkConfetti pos d radius colors emojis icon r now).color = none ↔
       (emojis ≠ [] ∨ icon.isSome = true)) ∧
    (emojis = [] → icon = none →
       ∃ s ∈ colors,
         (mkConfetti pos d radius colors emojis icon r now).color = some s) ∧
    (emojis ≠ [] →
       ∃ e ∈ emojis,
         (mkConfetti pos d radius colors emojis icon r now).emoji = some e) ∧
    (emojis = [] → (mkConfetti pos d radius colors emojis icon r now).emoji = none) ∧
    ¬((mkConfetti pos d radius colors emojis icon r now).color.isSome = true ∧
      ((mkConfetti pos d radius colors emojis icon r now).emoji.isSome = true ∨
        icon.isSome = true)) := by
  have hem1 : emojis ≠ [] →
      ∃ e ∈ emojis, (mkConfetti pos d radius colors emojis icon r now).emoji = some e := by
    intro hne
    obtain ⟨e, hmem, hpick⟩ := getRandomItem_mem emojis r.emojiIdx hne
    refine ⟨e, hmem, ?_⟩
    rw [mkConfetti_emoji, if_pos (by simpa [List.length_eq_zero] using hne), hpick]
  have hem2 : emojis = [] →
      (mkConfetti pos d radius colors emojis icon r now).emoji = none := by
    intro he
    rw [mkConfetti_emoji, if_neg (by simp [he])]
  by_cases hg : (emojis.length != 0 || icon.isSome) = true
  · have hcnone : (mkConfetti pos d radius colors emojis icon r now).color = none := by
      rw [mkConfetti_color, if_pos hg]
    refine ⟨⟨fun _ => (glyphCfg_iff emojis icon).mp hg, fun _ => hcnone⟩, ?_, hem1, hem2, ?_⟩
    · intro he hi
      exact absurd ((glyphCfg_iff emojis icon).mp hg) (by simp [he, hi])
    · intro hand
      rw [hcnone] at hand
      simp at hand
  · have hne : emojis = [] ∧ icon.isSome = false := by
      have := (glyphCfg_iff emojis icon).not.mp hg
      push_neg at this
      exact ⟨not_not.mp (by simpa using this.1), by simpa using this.2⟩
    obtain ⟨s, hmem, hpick⟩ := getRandomItem_mem colors r.colorIdx hcol
    have hcsome : (mkConfetti pos d radius colors emojis icon r now).color = some s := by
      rw [mkConfetti_color, if_neg hg, hpick]
    refine ⟨?_, ?_, hem1, hem2, ?_⟩
    · rw [hcsome]
      constructor
      · intro h; cases h
      · intro h
        exact absurd ((glyphCfg_iff emojis icon).mpr h) hg
    · intro _ _
      exact ⟨s, hmem, hcsome⟩
    · intro hand
      rcases hand.2 with h | h
      · rw [hem2 hne.1] at h; cases h
      · rw [hne.2] at h; cases h

/-- Witness for C8 with the default palette, no emojis and no icon. -/
theorem visual_identity_exclusive_witness :
    defaultColors ≠ [] ∧
    (∃ s ∈ defaultColors,
       (mkConfetti ⟨0, 500⟩ Direction.right 4 defaultColors [] none rSample 0).color
         = some s) ∧
    (mkConfetti ⟨0, 500⟩ Direction.right 4 defaultColors [] none rSample 0).emoji
      = none := by
  have hcol : defaultColors ≠ [] := by simp [defaultColors]
  have h := visual_identity_exclusive ⟨0, 500⟩ Direction.right 4 defaultColors []
    none rSample 0 hcol
  exact ⟨hcol, h.2.1 rfl rfl, h.2.2.2.1 rfl⟩

/-- When the particle shows a glyph (emoji, or ready icon), the tumble
block is skipped and the update only reassigns `speed.x` and `position`. -/
theorem updatePosition_of_glyph (c : Confetti) (dt t : ℚ)
    (hg : ¬(c.emoji = none ∧ c.svgIcon = false)) :
    c.updatePosition dt t =
      { c with
        speed := ⟨(if c.finalSpeedX < c.speed.x then
                     c.speed.x - c.dragCoefficient * dt
                   else c.speed.x), c.speed.y⟩
        position :=
          ⟨c.position.x + (if c.finalSpeedX < c.speed.x then
                             c.speed.x - c.dragCoefficient * dt
                           else c.speed.x) * dirSign c * dt,
           c.initialPosition.y - c.speed.y * c.absSin * (t - c.createdAt) +
             0.00125 * (t - c.createdAt) ^ 2 / 2⟩ } := by
  simp only [Confetti.updatePosition]
  rw [if_neg hg]

/-- Across any update sequence, a particle currently carrying a glyph
keeps `rotationSpeed`, `radius` and `radiusYDirection` unchanged. -/
theorem applyUpdates_glyph_const (c : Confetti) (l : List (ℚ × ℚ))
    (hg : c.emoji ≠ none ∨ c.svgIcon = true) :
    (applyUpdates c l).rotationSpeed = c.rotationSpeed ∧
    (applyUpdates c l).radius = c.radius ∧
    (applyUpdates c l).radiusYDirection = c.radiusYDirection := by
  induction l generalizing c with
  | nil => exact ⟨rfl, rfl, rfl⟩
  | cons p l ih =>
      have hgc : ¬(c.emoji = none ∧ c.svgIcon = false) := by
        intro hand
        rcases hg with h | h
        · exact h hand.1
        · rw [hand.2] at h; cases h
      have hg2 : (c.updatePosition p.1 p.2).emoji ≠ none ∨
          (c.updatePosition p.1 p.2).svgIcon = true := by
        rw [updatePosition_emoji, updatePosition_svgIcon]; exact hg
      have h3 := ih (c.updatePosition p.1 p.2) hg2
      rw [updatePosition_of_glyph c p.1 p.2 hgc] at h3
      simpa only [applyUpdates, List.foldl_cons,
        updatePosition_of_glyph c p.1 p.2 hgc] using h3

/-- **C9 (amended).** For every update call on a particle *currently*
carrying a glyph (emoji non-null, or icon image ready), `updatePosition`
mutates only `position` and `speed.x`; consequently `rotationSpeed`,
`radius` and `radiusYDirection` stay fixed across any update sequence
made while the glyph is carried, and a particle constructed with a glyph
configuration starts at the fixed `rotationSpeed = 0.01`. (The whole-life
constancy fails for an icon particle updated before its image loads —
see the counterexample.) -/
theorem glyph_update_frame_effect (c : Confetti) (dt t : ℚ) (l : List (ℚ × ℚ))
    (hg : c.emoji ≠ none ∨ c.svgIcon = true) :
    (∃ sx p, c.updatePosition dt t =
       { c with speed := ⟨sx, c.speed.y⟩, position := p }) ∧
    ((applyUpdates c l).rotationSpeed = c.rotationSpeed ∧
     (applyUpdates c l).radius = c.radius ∧
     (applyUpdates c l).radiusYDirection = c.radiusYDirection) ∧
    (∀ (pos : Vec2) (d : Direction) (rad : ℚ) (cs es : List String)
       (ic : Option String) (r : ConfettiRand) (now : ℚ),
       (es ≠ [] ∨ ic.isSome = true) →
       (mkConfetti pos d rad cs es ic r now).rotationSpeed = 0.01) := by
  have hgc : ¬(c.emoji = none ∧ c.svgIcon = false) := by
    intro hand
    rcases hg with h | h
    · exact h hand.1
    · rw [hand.2] at h; cases h
  refine ⟨⟨_, _, updatePosition_of_glyph c dt t hgc⟩,
    applyUpdates_glyph_const c l hg, ?_⟩
  intro pos d rad cs es ic r now hges
  rw [mkConfetti_rotationSpeed, if_pos ((glyphCfg_iff es ic).mpr hges)]

/-- Witness for C9 at the emoji particle `cEmoji` over one frame. -/
theorem glyph_update_frame_effect_witness :
    (cEmoji.emoji ≠ none ∨ cEmoji.svgIcon = true) ∧
    (applyUpdates cEmoji [(16, 16)]).rotationSpeed = cEmoji.rotationSpeed ∧
    (applyUpdates cEmoji [(16, 16)]).radius = cEmoji.radius ∧
    (applyUpdates cEmoji [(16, 16)]).radiusYDirection = cEmoji.radiusYDirection := by
  have hg : cEmoji.emoji ≠ none ∨ cEmoji.svgIcon = true := by
    left
    simp [cEmoji, mkConfetti_emoji, getRandomItem, rSample]
  exact ⟨hg, (glyph_update_frame_effect cEmoji 16 16 [(16, 16)] hg).2.1⟩

/-- Counterexample to C9 as stated: `cIcon` was created with an icon (so
with the fixed `rotationSpeed = 0.01`), tumbled during one frame processed
before its image loaded, and now — carrying a ready icon glyph — has
`rotationSpeed 0.009 ≠ 0.01` and a squashed `radius.y ≠ initialRadius`. -/
theorem glyph_rotation_whole_life_cex :
    cIcon.rotationSpeed = 0.01 ∧
    (svgIconLoad (cIcon.updatePosition 100 100)).svgIcon = true ∧
    (svgIconLoad (cIcon.updatePosition 100 100)).rotationSpeed ≠ 0.01 ∧
    (svgIconLoad (cIcon.updatePosition 100 100)).radius.y ≠
      (svgIconLoad (cIcon.updatePosition 100 100)).initialRadius := by
  refine ⟨by norm_num [cIcon, mkConfetti], ?_, ?_, ?_⟩ <;>
    norm_num [cIcon, mkConfetti, rSample, Confetti.updatePosition, tumbleStep,
      dirSign, svgIconLoad, getRandomItem]

/-- **C10.** The frame loop culls against the device-pixel canvas height
`h·dpr` set by `resizeCanvas`, while particle coordinates are in viewport
units: after a resize, a particle of the collection survives the frame
exactly while its updated `y < h·dpr + 100`; with `dpr > 1` (and `h > 0`)
that bound lies strictly above the viewport bound `h + 100`. -/
theorem loop_uses_device_pixel_height (m : ConfettiManager) (w h dpr t : ℚ) :
    (∀ c : Confetti,
       c.isVisible (m.resizeCanvas w h dpr).canvasHeight = true ↔
         c.position.y < h * dpr + 100) ∧
    (∀ c ∈ m.confetti,
       c.updatePosition (t - m.lastUpdated) t ∈
           ((m.resizeCanvas w h dpr).loop t).confetti ↔
         (c.updatePosition (t - m.lastUpdated) t).position.y < h * dpr + 100) ∧
    (1 < dpr → 0 < h → h + 100 < h * dpr + 100) := by
  refine ⟨?_, ?_, ?_⟩
  · intro c
    simp [Confetti.isVisible, ConfettiManager.resizeCanvas]
  · intro c hc
    constructor
    · intro hmem
      simp only [ConfettiManager.loop, List.mem_filter] at hmem
      simpa [Confetti.isVisible, ConfettiManager.resizeCanvas] using hmem.2
    · intro hy
      simp only [ConfettiManager.loop, List.mem_filter]
      exact ⟨List.mem_map_of_mem _ hc,
        by simpa [Confetti.isVisible, ConfettiManager.resizeCanvas] using hy⟩
  · intro hdpr hh
    have hlt : h * 1 < h * dpr := (mul_lt_mul_left hh).mpr hdpr
    linarith

/-- Witness for C10: with viewport height 600 and `dpr = 2`, the particle
updated to `y = 1010` is past the viewport bound 700 yet survives the
frame because the loop culls at `600·2 + 100 = 1300`. -/
theorem loop_uses_device_pixel_height_witness :
    cFall ∈ mFall.confetti ∧
    cFall.updatePosition (0 - mFall.lastUpdated) 0 ∈
      ((mFall.resizeCanvas 800 600 2).loop 0).confetti ∧
    ¬((cFall.updatePosition (0 - mFall.lastUpdated) 0).position.y < 600 + 100) := by
  have hmem : cFall ∈ mFall.confetti := by simp [mFall]
  have hy : (cFall.updatePosition (0 - mFall.lastUpdated) 0).position.y = 1010 := by
    norm_num [cFall, mFall, mkConfetti, rSample, Confetti.updatePosition,
      tumbleStep, dirSign]
  have h := loop_uses_device_pixel_height mFall 800 600 2 0
  exact ⟨hmem, (h.2.1 cFall hmem).mpr (by rw [hy]; norm_num),
    by rw [hy]; norm_num⟩

/-- The spawn loop pushes exactly two particles per iteration. -/
theorem spawnList_length (w b rad : ℚ) (cs es : List String)
    (ic : Option String) (gen : Nat → Direction → ConfettiRand) (now : ℚ)
    (n : Nat) :
    (spawnList w b rad cs es ic gen now n).length = 2 * n := by
  induction n with
  | zero => rfl
  | succ n ih =>
      simp only [spawnList, List.length_append, ih, List.length_cons,
        List.length_nil]
      omega

/-- Exactly one right-directed particle is pushed per iteration. -/
theorem spawnList_countP_right (w b rad : ℚ) (cs es : List String)
    (ic : Option String) (gen : Nat → Direction → ConfettiRand) (now : ℚ)
    (n : Nat) :
    (spawnList w b rad cs es ic gen now n).countP
      (fun c => decide (c.direction = Direction.right)) = n := by
  induction n with
  | zero => rfl
  | succ n ih =>
      simp only [spawnList, List.countP_append, ih, List.countP_cons,
        List.countP_nil, mkConfetti_direction]
      simp

/-- Exactly one left-directed particle is pushed per iteration. -/
theorem spawnList_countP_left (w b rad : ℚ) (cs es : List String)
    (ic : Option String) (gen : Nat → Direction → ConfettiRand) (now : ℚ)
    (n : Nat) :
    (spawnList w b rad cs es ic gen now n).countP
      (fun c => decide (c.direction = Direction.left)) = n := by
  induction n with
  | zero => rfl
  | succ n ih =>
      simp only [spawnList, List.countP_append, ih, List.countP_cons,
        List.countP_nil, mkConfetti_direction]
      simp

/-- Every spawned particle is one of the two mirrored constructor calls of
some iteration `i`. -/
theorem spawnList_mem (w b rad : ℚ) (cs es : List String)
    (ic : Option String) (gen : Nat → Direction → ConfettiRand) (now : ℚ)
    (n : Nat) :
    ∀ c ∈ spawnList w b rad cs es ic gen now n, ∃ i, i < n ∧
      (c = mkConfetti ⟨0, b⟩ Direction.right rad cs es ic (gen i Direction.right) now ∨
       c = mkConfetti ⟨w, b⟩ Direction.left rad cs es ic (gen i Direction.left) now) := by
  induction n with
  | zero => intro c hc; cases hc
  | succ n ih =>
      intro c hc
      rcases List.mem_append.mp hc with h | h
      · obtain ⟨i, hi, hor⟩ := ih c h
        exact ⟨i, Nat.lt_succ_of_lt hi, hor⟩
      · rcases List.mem_cons.mp h with rfl | h2
        · exact ⟨n, Nat.lt_succ_self n, Or.inl rfl⟩
        · rcases List.mem_cons.mp h2 with rfl | h3
          · exact ⟨n, Nat.lt_succ_self n, Or.inr rfl⟩
          · cases h3

/-- `addConfetti` appends the spawn-loop output to the live collection. -/
theorem addConfetti_confetti (m : ConfettiManager) (w h : ℚ)
    (cfg : ConfettiConfig) (gen : Nat → Direction → ConfettiRand) (now : ℚ) :
    (m.addConfetti w h cfg gen now).confetti =
      m.confetti ++
        spawnList w (5 * h / 7) (cfg.confettiRadius.getD 4)
          (cfg.confettiColors.getD defaultColors) (cfg.emojies.getD [])
          cfg.svgIcon gen now
          (jsLoopIterations ((cfg.confettiesNumber.getD 100) / 2)) := rfl

/-- The loop bound `count / 2` for the even example `count = 10` gives 5
iterations. -/
theorem jsLoopIterations_ten : jsLoopIterations ((10:ℚ) / 2) = 5 := by
  have h5 : ((10:ℚ) / 2) = (5:ℚ) := by norm_num
  rw [jsLoopIterations, h5, show ⌈(5:ℚ)⌉ = 5 from by norm_num]
  rfl

/-- The loop bound `count / 2` for the odd count 11 gives 6 iterations,
because the JS loop compares `i` against the fractional bound `5.5`. -/
theorem jsLoopIterations_eleven : jsLoopIterations ((11:ℚ) / 2) = 6 := by
  rw [jsLoopIterations,
    show ⌈(11:ℚ) / 2⌉ = 6 from by rw [Int.ceil_eq_iff]; norm_num]
  rfl

/-- **C1 (amended).** `spawnBurst` splits the count left/right with odd
counts rounding *up* per side: the live collection grows by exactly
`2·⌈count/2⌉` particles — `⌈count/2⌉` of them `direction=right` launched
from `(0, 5/7·surfaceHeight)` and `⌈count/2⌉` `direction=left` launched
from `(surfaceWidth, 5/7·surfaceHeight)` — appended after the existing
particles; for the even example, `spawnBurst({count: 10})` yields
exactly `2·5 = 10` particles, 5 per direction. -/
theorem addConfetti_split_amended (m : ConfettiManager) (w h : ℚ)
    (cfg : ConfettiConfig) (gen : Nat → Direction → ConfettiRand) (now : ℚ) :
    ((m.addConfetti w h cfg gen now).confetti.length =
       m.confetti.length +
         2 * jsLoopIterations ((cfg.confettiesNumber.getD 100) / 2)) ∧
    ((m.addConfetti w h cfg gen now).confetti.take m.confetti.length =
       m.confetti) ∧
    (((m.addConfetti w h cfg gen now).confetti.drop m.confetti.length).countP
        (fun c => decide (c.direction = Direction.right)) =
      jsLoopIterations ((cfg.confettiesNumber.getD 100) / 2)) ∧
    (((m.addConfetti w h cfg gen now).confetti.drop m.confetti.length).countP
        (fun c => decide (c.direction = Direction.left)) =
      jsLoopIterations ((cfg.confettiesNumber.getD 100) / 2)) ∧
    (∀ c ∈ (m.addConfetti w h cfg gen now).confetti.drop m.confetti.length,
       ∃ i, i < jsLoopIterations ((cfg.confettiesNumber.getD 100) / 2) ∧
         (c = mkConfetti ⟨0, 5 * h / 7⟩ Direction.right (cfg.confettiRadius.getD 4)
                (cfg.confettiColors.getD defaultColors) (cfg.emojies.getD [])
                cfg.svgIcon (gen i Direction.right) now ∨
          c = mkConfetti ⟨w, 5 * h / 7⟩ Direction.left (cfg.confettiRadius.getD 4)
                (cfg.confettiColors.getD defaultColors) (cfg.emojies.getD [])
                cfg.svgIcon (gen i Direction.left) now)) ∧
    jsLoopIterations ((10:ℚ) / 2) = 5 := by
  rw [addConfetti_confetti m w h cfg gen now]
  refine ⟨?_, List.take_left _ _, ?_, ?_, ?_, jsLoopIterations_ten⟩
  · rw [List.length_append, spawnList_length]
  · rw [List.drop_left, spawnList_countP_right]
  · rw [List.drop_left, spawnList_countP_left]
  · rw [List.drop_left]
    exact spawnList_mem w (5 * h / 7) (cfg.confettiRadius.getD 4)
      (cfg.confettiColors.getD defaultColors) (cfg.emojies.getD [])
      cfg.svgIcon gen now _

/-- Witness for C1: `spawnBurst({count: 10})` on the empty manager yields
exactly 10 particles, 5 per direction. -/
theorem addConfetti_split_amended_witness :
    (mEmpty.addConfetti 1000 700 cfg10 genSample 0).confetti.length = 10 ∧
    ((mEmpty.addConfetti 1000 700 cfg10 genSample 0).confetti.drop 0).countP
      (fun c => decide (c.direction = Direction.right)) = 5 ∧
    ((mEmpty.addConfetti 1000 700 cfg10 genSample 0).confetti.drop 0).countP
      (fun c => decide (c.direction = Direction.left)) = 5 := by
  have h := addConfetti_split_amended mEmpty 1000 700 cfg10 genSample 0
  have h5 : jsLoopIterations ((cfg10.confettiesNumber.getD 100) / 2) = 5 :=
    jsLoopIterations_ten
  refine ⟨?_, ?_, ?_⟩
  · rw [h.1, h5]
    rfl
  · have := h.2.2.1
    rw [h5] at this
    exact this
  · have := h.2.2.2.1
    rw [h5] at this
    exact this

/-- Counterexample to C1 as stated: `spawnBurst({count: 11})` grows the
live collection by 12 particles (6 per side — the fractional loop bound
`5.5` admits `i = 5`), not by `2·⌊11/2⌋ = 10`. -/
theorem addConfetti_odd_count_cex :
    (mEmpty.addConfetti 1000 700 cfg11 genSample 0).confetti.length ≠
      2 * ((11:ℕ) / 2) := by
  rw [addConfetti_confetti mEmpty 1000 700 cfg11 genSample 0,
    List.length_append, spawnList_length,
    show (cfg11.confettiesNumber.getD 100) = (11:ℚ) from rfl,
    jsLoopIterations_eleven]
  decide

end SiemensConfetti
